import Mathlib

/-!
Shallow embedding of the log-structured key-value store core of the
repository (`src/actionkv/src/lib.rs`) and proofs about it.

Modelling conventions:
* A file or stream is a `List Byte` where `Byte` abbreviates `Nat`;
  genuine bytes are `< 256`, and the 8-bit masking `% 256` appears exactly
  where the Rust `u8` type forces it.
* `io::Result` errors (the `?` operator on reads) and the two possible
  panics of `process_record` are distinct constructors of `ProcResult`:
  a panic terminates the process, an `io::Result` error is a typed value
  returned to the caller.
* Arithmetic on `u32` is `Nat` with explicit reduction modulo `2 ^ 32`
  (release-mode Rust semantics: `key_len + val_len` wraps on overflow).
-/

namespace ActionKVSpec

/-- Bytes are modelled as natural numbers; a real byte is `< 256`. -/
abbrev Byte := Nat

/-- The number of values of a `u32`: `2 ^ 32`. -/
def u32max : Nat := 2 ^ 32

/-- Reflected IEEE CRC-32 polynomial `0xEDB88320`, as used by
`crc32::checksum_ieee` from the `crc` crate. -/
def crcPoly : Nat := 3988292384

/-- One shift-and-conditionally-xor step of the reflected CRC-32:
shift right by one bit and xor in the polynomial when the low bit was set. -/
def crcStep (c : Nat) : Nat :=
  if c % 2 = 1 then (c / 2) ^^^ crcPoly else c / 2

/-- Folds one input byte into the CRC state: xor the byte into the low
8 bits of the state, then run 8 `crcStep`s. -/
def crcByte (c b : Nat) : Nat :=
  crcStep^[8] (c ^^^ (b % 256))

/-- Embeds `crc32::checksum_ieee`: initial state `0xFFFFFFFF`, reflected
polynomial `0xEDB88320`, final xor with `0xFFFFFFFF`, over the data bytes. -/
def checksum_ieee (data : List Byte) : Nat :=
  (data.foldl crcByte 4294967295) ^^^ 4294967295

/-- Serializes a `u32` to four little-endian bytes
(`WriteBytesExt::write_u32::<LittleEndian>`). -/
def u32ToLE (n : Nat) : List Byte :=
  [n % 256, n / 256 % 256, n / 65536 % 256, n / 16777216 % 256]

/-- Embeds `ReadBytesExt::read_u32::<LittleEndian>`: consumes four bytes and
combines them little-endian; fewer than four bytes available is an
`UnexpectedEof` I/O error, modelled as `none`. -/
def readU32LE : List Byte → Option (Nat × List Byte)
  | b0 :: b1 :: b2 :: b3 :: rest =>
      some (b0 % 256 + 256 * (b1 % 256) + 65536 * (b2 % 256) + 16777216 * (b3 % 256), rest)
  | _ => none

/-- Embeds `KeyValuePair { key: ByteString, value: ByteString }`. -/
structure KeyValuePair where
  key : List Byte
  value : List Byte
deriving DecidableEq, Repr

/-- Outcome of `process_record`:
* `ok kv rest` — `Ok(KeyValuePair)` was returned, `rest` is what remains of
  the stream after the consumed bytes;
* `ioErr` — a read returned an `io::Result` error which `?` propagated to
  the caller (typed, recoverable);
* `corruptPanic` — the `panic!("data corruption encountered ...")` on
  checksum mismatch fired (process terminates);
* `splitPanic` — `Vec::split_off` panicked because `key_len` exceeds the
  number of payload bytes actually read (process terminates). -/
inductive ProcResult where
  | ok : KeyValuePair → List Byte → ProcResult
  | ioErr : ProcResult
  | corruptPanic : ProcResult
  | splitPanic : ProcResult
deriving DecidableEq, Repr

/-- Tail of `process_record` after the header has been read: `data` is the
payload actually read, `rest` the unconsumed stream. Recomputes the checksum
over `data`, panics on mismatch, otherwise splits `data` at `key_len`
(`let value = data.split_off(key_len as usize); let key = data;`).
The `debug_assert_eq!(data.len(), data_len as usize)` of the source is
compiled out in release builds and is not part of the model. -/
def finishRecord (saved klen : Nat) (data rest : List Byte) : ProcResult :=
  if checksum_ieee data ≠ saved then
    .corruptPanic
  else if klen ≤ data.length then
    .ok ⟨data.take klen, data.drop klen⟩ rest
  else
    .splitPanic

/-- Embeds `process_record`: reads a 12-byte header as three little-endian
`u32`s — `saved_checksum`, `key_len`, `val_len` — computes
`data_len = key_len + val_len` (wrapping `u32` addition), then
`take(data_len).read_to_end(..)` reads `min data_len (remaining)` bytes
without erroring on a short read, and `finishRecord` checks the checksum
and splits the payload. -/
def processRecord (s : List Byte) : ProcResult :=
  match readU32LE s with
  | none => .ioErr
  | some (saved, s1) =>
    match readU32LE s1 with
    | none => .ioErr
    | some (klen, s2) =>
      match readU32LE s2 with
      | none => .ioErr
      | some (vlen, s3) =>
        finishRecord saved klen (s3.take ((klen + vlen) % u32max))
          (s3.drop ((klen + vlen) % u32max))

/-- Modelled from the spec: the source under `src/` contains no encoder;
spec §4.1/§6 fix the layout `checksum(4) | key_len(4) | value_len(4) | key |
value`, all integers little-endian, checksum CRC-32 (IEEE) over
`key || value`. -/
def encode (kv : KeyValuePair) : List Byte :=
  u32ToLE (checksum_ieee (kv.key ++ kv.value)) ++
    u32ToLE kv.key.length ++ u32ToLE kv.value.length ++ kv.key ++ kv.value

/-- The in-memory index: a finite map from key to byte offset, modelled as an
association list (the source uses `HashMap<ByteString, u64>`). -/
abbrev Index := List (List Byte × Nat)

/-- Looks a key up in the index (`HashMap::get`). -/
def idxGet (idx : Index) (k : List Byte) : Option Nat :=
  match idx.find? (fun p => p.1 == k) with
  | some p => some p.2
  | none => none

/-- Stores `index[k] = off`, overwriting any previous entry for `k`
(`HashMap::insert`). -/
def idxSet (idx : Index) (k : List Byte) (off : Nat) : Index :=
  (k, off) :: idx.filter (fun p => !(p.1 == k))

/-- Embeds the `ActionKV` struct: the opened file is modelled by its byte
contents, alongside the in-memory index. -/
structure ActionKV where
  contents : List Byte
  index : Index
deriving DecidableEq, Repr

/-- Embeds `ActionKV::open`: opens or creates the file at the path (modelled
by the opened file's byte contents) and sets `index = HashMap::new()`; the
source reads nothing back from the file here. -/
def ActionKV.open (fileBytes : List Byte) : ActionKV :=
  { contents := fileBytes, index := [] }

/-- Modelled from the spec: the source under `src/` implements no store
operations beyond `open` and the record codec; spec §4.2-§4.4 describe a
Store holding the append-only log bytes and the index. -/
structure Store where
  log : List Byte
  index : Index
deriving DecidableEq, Repr

/-- Modelled from the spec: a store freshly opened on an empty file — empty
log, empty index. -/
def Store.empty : Store := { log := [], index := [] }

/-- Modelled from the spec: §4.2 `append` writes at end-of-file and returns
the offset where the write began; §4.4 `insert` encodes and appends the
record, then sets `index[key] = offset`. -/
def Store.insert (st : Store) (key value : List Byte) : Store :=
  { log := st.log ++ encode ⟨key, value⟩,
    index := idxSet st.index key st.log.length }

/-- Modelled from the spec: §4.4 `get` looks up `index[key]`; absent keys
are "not found" (`none`); otherwise `read_at(offset)` positions the stream
at the offset and the codec decodes one record, whose value is returned. -/
def Store.get (st : Store) (key : List Byte) : Option (List Byte) :=
  match idxGet st.index key with
  | none => none
  | some off =>
    match processRecord (st.log.drop off) with
    | .ok kv _ => some kv.value
    | _ => none

/-- Modelled from the spec: §4.2/§4.3 scan the log from byte 0, decoding one
record at a time and setting `index[key] = offset` for each, last write
winning; the scan stops at end-of-file or on the first failed decode. The
`fuel` argument only bounds the recursion: every decoded record consumes at
least its 12-byte header, so `bytes.length + 1` steps always reach the end. -/
def rebuildAux : Nat → List Byte → Nat → Index → Index
  | 0, _, _, idx => idx
  | fuel + 1, bytes, off, idx =>
    match processRecord bytes with
    | .ok kv rest =>
        rebuildAux fuel rest (off + (bytes.length - rest.length)) (idxSet idx kv.key off)
    | _ => idx

/-- Modelled from the spec: §4.3 `rebuild(log) -> Index` performs
`scan_from_start` over the log and sets `index[key] = offset` for each
decoded record in log order. -/
def Index.rebuild (log : List Byte) : Index :=
  rebuildAux (log.length + 1) log 0 []

/-- Flips bit `i` (0-based, 0..7) of the byte at position `pos` of a byte
string: the single-bit corruption used to state checksum sensitivity. -/
def flipBit (l : List Byte) (pos i : Nat) : List Byte :=
  l.set pos (l.getD pos 0 ^^^ 2 ^ i)

lemma readU32LE_u32ToLE (n : Nat) (r : List Byte) :
    readU32LE (u32ToLE n ++ r) = some (n % u32max, r) := by
  simp only [u32ToLE, List.cons_append, List.nil_append, readU32LE, u32max]
  exact congrArg (fun x => some (x, r)) (by omega)

lemma crcPoly_lt : crcPoly < 2 ^ 32 := by norm_num [crcPoly]

lemma crcPoly_testBit31 : Nat.testBit crcPoly 31 = true := by decide

lemma crcStep_lt {c : Nat} (h : c < 2 ^ 32) : crcStep c < 2 ^ 32 := by
  unfold crcStep
  split
  · exact Nat.xor_lt_two_pow (by omega) crcPoly_lt
  · omega

lemma xor_left_cancel {a x y : Nat} (h : a ^^^ x = a ^^^ y) : x = y := by
  have h2 := congrArg (fun z => a ^^^ z) h
  simpa [← Nat.xor_assoc] using h2

lemma xor_right_cancel {x y a : Nat} (h : x ^^^ a = y ^^^ a) : x = y := by
  have h2 := congrArg (fun z => z ^^^ a) h
  simpa [Nat.xor_assoc] using h2

lemma crcStep_inj {c1 c2 : Nat} (h1 : c1 < 2 ^ 32) (h2 : c2 < 2 ^ 32)
    (h : crcStep c1 = crcStep c2) : c1 = c2 := by
  have d1 : c1 / 2 < 2 ^ 31 := by omega
  have d2 : c2 / 2 < 2 ^ 31 := by omega
  unfold crcStep at h
  rcases Nat.mod_two_eq_zero_or_one c1 with p1 | p1 <;>
    rcases Nat.mod_two_eq_zero_or_one c2 with p2 | p2
  · rw [if_neg (by omega), if_neg (by omega)] at h
    omega
  · rw [if_neg (by omega), if_pos p2] at h
    have hb := congrArg (fun z => Nat.testBit z 31) h
    simp only [Nat.testBit_xor, Nat.testBit_lt_two_pow d1, Nat.testBit_lt_two_pow d2,
      crcPoly_testBit31] at hb
    exact absurd hb (by decide)
  · rw [if_pos p1, if_neg (by omega)] at h
    have hb := congrArg (fun z => Nat.testBit z 31) h
    simp only [Nat.testBit_xor, Nat.testBit_lt_two_pow d1, Nat.testBit_lt_two_pow d2,
      crcPoly_testBit31] at hb
    exact absurd hb (by decide)
  · rw [if_pos p1, if_pos p2] at h
    have h3 := xor_right_cancel h
    omega

lemma crcStep_iter_lt : ∀ (n : Nat) {c : Nat}, c < 2 ^ 32 → crcStep^[n] c < 2 ^ 32
  | 0, _, h => h
  | n + 1, c, h => by
      rw [Function.iterate_succ_apply]
      exact crcStep_iter_lt n (crcStep_lt h)

lemma crcStep_iter_inj : ∀ (n : Nat) {c1 c2 : Nat}, c1 < 2 ^ 32 → c2 < 2 ^ 32 →
    crcStep^[n] c1 = crcStep^[n] c2 → c1 = c2
  | 0, _, _, _, _, h => h
  | n + 1, _, _, h1, h2, h => by
      rw [Function.iterate_succ_apply, Function.iterate_succ_apply] at h
      exact crcStep_inj h1 h2 (crcStep_iter_inj n (crcStep_lt h1) (crcStep_lt h2) h)

lemma crcByte_lt {c : Nat} (h : c < 2 ^ 32) (b : Byte) : crcByte c b < 2 ^ 32 :=
  crcStep_iter_lt 8 (Nat.xor_lt_two_pow h (by omega))

lemma crcByte_state_inj {c1 c2 : Nat} (b : Byte) (h1 : c1 < 2 ^ 32) (h2 : c2 < 2 ^ 32)
    (h : crcByte c1 b = crcByte c2 b) : c1 = c2 :=
  xor_right_cancel
    (crcStep_iter_inj 8 (Nat.xor_lt_two_pow h1 (by omega)) (Nat.xor_lt_two_pow h2 (by omega)) h)

lemma crcByte_byte_inj {c : Nat} {b1 b2 : Byte} (h : c < 2 ^ 32)
    (hne : b1 % 256 ≠ b2 % 256) : crcByte c b1 ≠ crcByte c b2 := by
  intro he
  exact hne (xor_left_cancel
    (crcStep_iter_inj 8 (Nat.xor_lt_two_pow h (by omega)) (Nat.xor_lt_two_pow h (by omega)) he))

lemma foldl_crcByte_lt : ∀ (l : List Byte) {c : Nat}, c < 2 ^ 32 → l.foldl crcByte c < 2 ^ 32
  | [], _, h => h
  | b :: t, _, h => foldl_crcByte_lt t (crcByte_lt h b)

lemma foldl_crcByte_inj : ∀ (l : List Byte) {c1 c2 : Nat}, c1 < 2 ^ 32 → c2 < 2 ^ 32 →
    l.foldl crcByte c1 = l.foldl crcByte c2 → c1 = c2
  | [], _, _, _, _, h => h
  | b :: t, _, _, h1, h2, h =>
      crcByte_state_inj b h1 h2 (foldl_crcByte_inj t (crcByte_lt h1 b) (crcByte_lt h2 b) h)

lemma checksum_ieee_lt (data : List Byte) : checksum_ieee data < u32max := by
  unfold checksum_ieee u32max
  exact Nat.xor_lt_two_pow (foldl_crcByte_lt data (by norm_num)) (by norm_num)

lemma foldl_crcByte_set_ne : ∀ (l : List Byte) (j : Nat) (x : Byte) {c : Nat},
    c < 2 ^ 32 → j < l.length → x % 256 ≠ (l.getD j 0) % 256 →
    (l.set j x).foldl crcByte c ≠ l.foldl crcByte c
  | [], _, _, _, _, hj, _ => absurd hj (by simp)
  | b :: t, 0, x, c, hc, _, hx => by
      simp only [List.set_cons_zero, List.foldl_cons, List.getD_cons_zero] at *
      intro he
      exact crcByte_byte_inj hc hx
        (foldl_crcByte_inj t (crcByte_lt hc x) (crcByte_lt hc b) he)
  | b :: t, j + 1, x, c, hc, hj, hx => by
      simp only [List.set_cons_succ, List.foldl_cons, List.getD_cons_succ,
        List.length_cons] at *
      exact foldl_crcByte_set_ne t j x (crcByte_lt hc b) (by omega) hx

lemma checksum_ieee_set_ne (l : List Byte) (j : Nat) (x : Byte) (hj : j < l.length)
    (hx : x % 256 ≠ (l.getD j 0) % 256) : checksum_ieee (l.set j x) ≠ checksum_ieee l := by
  unfold checksum_ieee
  intro he
  exact foldl_crcByte_set_ne l j x (by norm_num) hj hx (xor_right_cancel he)

lemma processRecord_header (saved klen vlen : Nat) (payload : List Byte)
    (hs : saved < u32max) (hk : klen < u32max) (hv : vlen < u32max) :
    processRecord (u32ToLE saved ++ (u32ToLE klen ++ (u32ToLE vlen ++ payload)))
      = finishRecord saved klen (payload.take ((klen + vlen) % u32max))
          (payload.drop ((klen + vlen) % u32max)) := by
  simp only [processRecord, readU32LE_u32ToLE, Nat.mod_eq_of_lt hs, Nat.mod_eq_of_lt hk,
    Nat.mod_eq_of_lt hv]

lemma encode_eq (key value : List Byte) :
    encode ⟨key, value⟩
      = u32ToLE (checksum_ieee (key ++ value)) ++ (u32ToLE key.length ++
          (u32ToLE value.length ++ (key ++ value))) := by
  simp [encode, List.append_assoc]

lemma processRecord_encode (key value extra : List Byte)
    (h : key.length + value.length < u32max) :
    processRecord (encode ⟨key, value⟩ ++ extra) = .ok ⟨key, value⟩ extra := by
  have hs := checksum_ieee_lt (key ++ value)
  have e : encode ⟨key, value⟩ ++ extra
      = u32ToLE (checksum_ieee (key ++ value)) ++ (u32ToLE key.length ++
          (u32ToLE value.length ++ ((key ++ value) ++ extra))) := by
    simp [encode, List.append_assoc]
  rw [e, processRecord_header _ _ _ _ hs (by omega) (by omega)]
  have hlen : (key ++ value).length = key.length + value.length := List.length_append _ _
  rw [Nat.mod_eq_of_lt h, List.take_left' hlen, List.drop_left' hlen]
  simp only [finishRecord, ne_eq, not_true_eq_false, if_false, hlen, ite_not]
  rw [if_pos (by omega)]
  rw [List.take_left, List.drop_left]

lemma flipBit_append (H t : List Byte) (j i : Nat) (hj : j < t.length) :
    flipBit (H ++ t) (H.length + j) i = H ++ t.set j (t.getD j 0 ^^^ 2 ^ i) := by
  unfold flipBit
  rw [List.set_append_right _ _ (Nat.le_add_right _ _), Nat.add_sub_cancel_left]
  congr 2
  rw [List.getD_eq_getElem?_getD, List.getD_eq_getElem?_getD,
    List.getElem?_append_right (Nat.le_add_right _ _), Nat.add_sub_cancel_left]

/-- Claim C1 fails as stated: take `key` of length `2 ^ 32 - 1` and `value`
of length 1 — each length fits in 32 bits. In the encoding's header the
declared lengths sum to `2 ^ 32`, the wrapping 32-bit sum `key_len +
val_len` computed by decode is 0, so decode reads no payload bytes and then
either panics on the checksum comparison or panics inside `split_off`; it
never returns the pair. -/
theorem c1_counterexample :
    processRecord (encode ⟨List.replicate (u32max - 1) 0, [0]⟩) = .corruptPanic ∨
    processRecord (encode ⟨List.replicate (u32max - 1) 0, [0]⟩) = .splitPanic := by
  have hs := checksum_ieee_lt (List.replicate (u32max - 1) (0 : Byte) ++ [0])
  have e : encode ⟨List.replicate (u32max - 1) 0, [0]⟩
      = u32ToLE (checksum_ieee (List.replicate (u32max - 1) (0 : Byte) ++ [0])) ++
          (u32ToLE (u32max - 1) ++
            (u32ToLE 1 ++ (List.replicate (u32max - 1) (0 : Byte) ++ [0]))) := by
    simp [encode, List.append_assoc]
  rw [e, processRecord_header _ _ _ _ hs (by unfold u32max; omega) (by unfold u32max; omega)]
  have h0 : (u32max - 1 + 1) % u32max = 0 := by unfold u32max; omega
  rw [h0, List.take_zero]
  by_cases hcs :
      checksum_ieee [] = checksum_ieee (List.replicate (u32max - 1) (0 : Byte) ++ [0])
  · right
    rw [finishRecord, if_neg (not_not_intro hcs), if_neg (by simp [u32max])]
  · left
    rw [finishRecord, if_pos hcs]

/-- C1 (amended): the decode-encode round-trip holds for every pair of byte
sequences whose lengths each fit in 32 bits and whose total length also fits
in 32 bits — the extra bound is forced because decode computes the payload
length as the wrapping 32-bit sum `key_len + val_len`. -/
theorem c1_roundtrip (key value : List Byte)
    (hk : key.length < u32max) (hv : value.length < u32max)
    (hkv : key.length + value.length < u32max) :
    processRecord (encode ⟨key, value⟩) = .ok ⟨key, value⟩ [] := by
  simpa using processRecord_encode key value [] hkv

theorem c1_witness :
    ([97] : List Byte).length < u32max ∧ ([98, 99] : List Byte).length < u32max ∧
    ([97] : List Byte).length + ([98, 99] : List Byte).length < u32max ∧
    processRecord (encode ⟨[97], [98, 99]⟩) = .ok ⟨[97], [98, 99]⟩ [] :=
  ⟨by decide, by decide, by decide, c1_roundtrip [97] [98, 99] (by decide) (by decide) (by decide)⟩

/-- Claim C2 fails as stated: on this concrete corrupted stream (stored
checksum 1, zero-length payload whose CRC is 0) `process_record` hits the
`panic!` on checksum mismatch — modelled `corruptPanic`, which terminates
the process and is not the typed, recoverable `io::Result` error (`ioErr`)
the claim requires. -/
theorem c2_counterexample :
    processRecord [1, 0, 0, 0, 0, 0, 0, 0, 0, 0, 0, 0] = .corruptPanic ∧
    ProcResult.corruptPanic ≠ ProcResult.ioErr :=
  ⟨by decide, by decide⟩

/-- C2 (amended): on checksum mismatch `process_record` panics — a
process-terminating fault, not a typed recoverable error — and it never
returns a record whose recomputed checksum differs from the stored one:
whenever it returns `Ok`, the CRC of `key ++ value` equals the stored
checksum (the stream's first little-endian `u32`). -/
theorem c2_mismatch_panics :
    (∀ saved klen vlen payload, saved < u32max → klen < u32max → vlen < u32max →
        checksum_ieee (payload.take ((klen + vlen) % u32max)) ≠ saved →
        processRecord (u32ToLE saved ++ (u32ToLE klen ++ (u32ToLE vlen ++ payload)))
          = .corruptPanic) ∧
    (∀ s kv rest, processRecord s = .ok kv rest →
        ∃ saved s1, readU32LE s = some (saved, s1) ∧
          checksum_ieee (kv.key ++ kv.value) = saved) := by
  constructor
  · intro saved klen vlen payload hs hk hv hne
    rw [processRecord_header _ _ _ _ hs hk hv, finishRecord, if_pos hne]
  · intro s kv rest h
    unfold processRecord at h
    split at h
    · exact absurd h (by simp)
    · rename_i saved s1 h1
      split at h
      · exact absurd h (by simp)
      · rename_i klen s2 h2
        split at h
        · exact absurd h (by simp)
        · rename_i vlen s3 h3
          refine ⟨saved, s1, h1, ?_⟩
          unfold finishRecord at h
          by_cases hcs : checksum_ieee (s3.take ((klen + vlen) % u32max)) = saved
          · rw [if_neg (not_not_intro hcs)] at h
            by_cases hkl : klen ≤ (s3.take ((klen + vlen) % u32max)).length
            · rw [if_pos hkl] at h
              cases h
              simpa [List.take_append_drop] using hcs
            · rw [if_neg hkl] at h
              exact absurd h (by simp)
          · rw [if_pos hcs] at h
            exact absurd h (by simp)

theorem c2_witness :
    checksum_ieee (([] : List Byte).take ((0 + 0) % u32max)) ≠ 1 ∧
    processRecord (u32ToLE 1 ++ (u32ToLE 0 ++ (u32ToLE 0 ++ ([] : List Byte))))
      = .corruptPanic :=
  ⟨by decide,
    c2_mismatch_panics.1 1 0 0 [] (by decide) (by decide) (by decide) (by decide)⟩

/-- Claim C3, evaluated at the failing input: the 12-byte header declares
`key_len = 1`, `val_len = 0` with stored checksum 0, and the stream ends
right after the header. `take(1).read_to_end` reads the empty payload
without reporting any I/O error (it stops at EOF), the empty payload's CRC
is 0 so the checksum check passes, and `split_off(1)` panics — decode does
not fail with an I/O error as the claim (and the source's own
`debug_assert_eq!` on the payload length) requires. A truncated header, by
contrast, is a genuine I/O error. -/
theorem c3_truncated_payload :
    processRecord [0, 0, 0, 0, 1, 0, 0, 0, 0, 0, 0, 0] = .splitPanic ∧
    ProcResult.splitPanic ≠ ProcResult.ioErr ∧
    processRecord [0, 0] = .ioErr :=
  ⟨by decide, by decide, by decide⟩

/-- C4: for a stream long enough — at least `key_len + value_len` payload
bytes after the 12-byte header, the sum not overflowing `u32` — decode reads
the three little-endian `u32` header fields in order checksum, key_len,
value_len, then reads exactly `key_len + value_len` payload bytes, and, when
the stored checksum matches, splits that payload into the first `key_len`
bytes (the key) and the remainder (the value). -/
theorem c4_header_and_split (saved klen vlen : Nat) (payload : List Byte)
    (hs : saved < u32max) (hsum : klen + vlen < u32max)
    (hlen : klen + vlen ≤ payload.length) :
    processRecord (u32ToLE saved ++ (u32ToLE klen ++ (u32ToLE vlen ++ payload)))
        = finishRecord saved klen (payload.take (klen + vlen)) (payload.drop (klen + vlen)) ∧
    (saved = checksum_ieee (payload.take (klen + vlen)) →
      processRecord (u32ToLE saved ++ (u32ToLE klen ++ (u32ToLE vlen ++ payload)))
        = .ok ⟨(payload.take (klen + vlen)).take klen, (payload.take (klen + vlen)).drop klen⟩
            (payload.drop (klen + vlen))) := by
  have h1 := processRecord_header saved klen vlen payload hs (by omega) (by omega)
  rw [Nat.mod_eq_of_lt hsum] at h1
  have hd : (payload.take (klen + vlen)).length = klen + vlen := by
    rw [List.length_take]
    omega
  refine ⟨h1, fun hcs => ?_⟩
  rw [h1, finishRecord, if_neg (not_not_intro hcs.symm), if_pos (by rw [hd]; omega)]

theorem c4_witness :
    checksum_ieee [97, 98] < u32max ∧ 1 + 1 < u32max ∧
    1 + 1 ≤ ([97, 98] : List Byte).length ∧
    processRecord (u32ToLE (checksum_ieee [97, 98]) ++ (u32ToLE 1 ++ (u32ToLE 1 ++ [97, 98])))
      = .ok ⟨[97], [98]⟩ [] := by
  refine ⟨by decide, by decide, by decide, ?_⟩
  have h := (c4_header_and_split (checksum_ieee [97, 98]) 1 1 [97, 98]
    (by decide) (by decide) (by decide)).2 (by decide)
  exact h

/-- Claim C6 fails as stated: this log is one valid record with key `[97]`
at offset 0 (second conjunct), yet after `ActionKV::open` the index does not
map `[97]` to offset 0 — the source's `open` sets `index = HashMap::new()`
and never replays the log (no `load` exists in the source). -/
theorem c6_counterexample :
    idxGet (ActionKV.open (encode ⟨[97], [98]⟩)).index [97] ≠ some 0 ∧
    processRecord (encode ⟨[97], [98]⟩) = .ok ⟨[97], [98]⟩ [] :=
  ⟨by decide, by decide⟩

/-- C6 (amended): `ActionKV::open` opens or creates the log file and returns
a store whose in-memory index is empty, whatever the file contains; the
source performs no replay at open (`load` is not implemented in it). -/
theorem c6_open_empty_index (fileBytes : List Byte) :
    (ActionKV.open fileBytes).index = [] := rfl

/-- C7: zero-length keys and zero-length values are valid — for every record
whose key is empty, or whose value is empty, or both (lengths fitting in 32
bits), decode of its well-formed encoding succeeds and returns the record. -/
theorem c7_zero_length_ok (key value : List Byte)
    (hk : key.length < u32max) (hv : value.length < u32max)
    (hz : key = [] ∨ value = []) :
    processRecord (encode ⟨key, value⟩) = .ok ⟨key, value⟩ [] := by
  have hkv : key.length + value.length < u32max := by
    rcases hz with rfl | rfl
    · simpa using hv
    · simpa using hk
  simpa using processRecord_encode key value [] hkv

theorem c7_witness :
    ([] : List Byte).length < u32max ∧ ([49] : List Byte).length < u32max ∧
    (([] : List Byte) = [] ∨ ([49] : List Byte) = []) ∧
    processRecord (encode ⟨[], [49]⟩) = .ok ⟨[], [49]⟩ [] :=
  ⟨by decide, by decide, Or.inl rfl, c7_zero_length_ok [] [49] (by decide) (by decide) (Or.inl rfl)⟩

/-- C9: when the mathematical sum `key_len + value_len` exceeds `2 ^ 32 - 1`,
the payload length computed by decode wraps modulo `2 ^ 32`: decode reads
only `(key_len + value_len) % 2 ^ 32` payload bytes — strictly fewer than
the two header fields jointly declare. -/
theorem c9_wrapping_sum (saved klen vlen : Nat) (payload : List Byte)
    (hs : saved < u32max) (hk : klen < u32max) (hv : vlen < u32max)
    (hof : u32max ≤ klen + vlen) :
    (klen + vlen) % u32max < klen + vlen ∧
    processRecord (u32ToLE saved ++ (u32ToLE klen ++ (u32ToLE vlen ++ payload)))
      = finishRecord saved klen (payload.take ((klen + vlen) % u32max))
          (payload.drop ((klen + vlen) % u32max)) :=
  ⟨by unfold u32max at *; omega, processRecord_header saved klen vlen payload hs hk hv⟩

theorem c9_witness :
    (0 : Nat) < u32max ∧ u32max - 1 < u32max ∧ (1 : Nat) < u32max ∧
    u32max ≤ u32max - 1 + 1 ∧
    ((u32max - 1 + 1) % u32max < u32max - 1 + 1 ∧
      processRecord (u32ToLE 0 ++ (u32ToLE (u32max - 1) ++ (u32ToLE 1 ++ ([] : List Byte))))
        = finishRecord 0 (u32max - 1) (([] : List Byte).take ((u32max - 1 + 1) % u32max))
            (([] : List Byte).drop ((u32max - 1 + 1) % u32max))) :=
  ⟨by decide, by decide, by decide, by decide,
    c9_wrapping_sum 0 (u32max - 1) 1 [] (by decide) (by decide) (by decide) (by decide)⟩

/-- C10: when `key_len + value_len` does not exceed `2 ^ 32 - 1`, the stream
provides at least that many payload bytes, and the stored checksum equals
the recomputed one, the split at `key_len` is in bounds and decode returns —
without panicking — a key of exactly `key_len` bytes and a value of exactly
`value_len` bytes. -/
theorem c10_split_in_bounds (klen vlen : Nat) (payload : List Byte)
    (hsum : klen + vlen < u32max) (hlen : klen + vlen ≤ payload.length) :
    ∃ kv rest,
      processRecord (u32ToLE (checksum_ieee (payload.take (klen + vlen))) ++
          (u32ToLE klen ++ (u32ToLE vlen ++ payload))) = .ok kv rest ∧
      kv.key.length = klen ∧ kv.value.length = vlen := by
  have hs := checksum_ieee_lt (payload.take (klen + vlen))
  have h1 := processRecord_header (checksum_ieee (payload.take (klen + vlen))) klen vlen
    payload hs (by omega) (by omega)
  rw [Nat.mod_eq_of_lt hsum] at h1
  have hd : (payload.take (klen + vlen)).length = klen + vlen := by
    rw [List.length_take]
    omega
  refine ⟨⟨(payload.take (klen + vlen)).take klen, (payload.take (klen + vlen)).drop klen⟩,
    payload.drop (klen + vlen), ?_, ?_, ?_⟩
  · rw [h1, finishRecord, if_neg (not_not_intro rfl), if_pos (by rw [hd]; omega)]
  · rw [List.length_take, hd]
    omega
  · rw [List.length_drop, hd]
    omega

/-- C5: flipping any single bit of any payload byte (positions 12 onward) of
a well-formed encoded record — genuine bytes, total length fitting in 32
bits — makes `process_record` hit the corruption panic rather than return a
record: the 32-bit IEEE CRC detects every single-bit payload error. -/
theorem c5_bit_flip_detected (key value : List Byte) (j i : Nat)
    (hkv : key.length + value.length < u32max)
    (hb : ∀ b ∈ key ++ value, b < 256)
    (hj : j < (key ++ value).length) (hi : i < 8) :
    processRecord (flipBit (encode ⟨key, value⟩) (12 + j) i) = .corruptPanic := by
  have hh : (u32ToLE (checksum_ieee (key ++ value)) ++ (u32ToLE key.length
      ++ u32ToLE value.length)).length = 12 := by
    simp [u32ToLE]
  have e : encode ⟨key, value⟩
      = (u32ToLE (checksum_ieee (key ++ value)) ++ (u32ToLE key.length
          ++ u32ToLE value.length)) ++ (key ++ value) := by
    simp [encode, List.append_assoc]
  have hblt : (key ++ value).getD j 0 < 256 := by
    rw [List.getD_eq_getElem?_getD, List.getElem?_eq_getElem hj]
    exact hb _ (List.getElem_mem hj)
  have hxlt : (key ++ value).getD j 0 ^^^ 2 ^ i < 256 := by
    have hblt8 : (key ++ value).getD j 0 < 2 ^ 8 := Nat.lt_of_lt_of_le hblt (by norm_num)
    have h2i : 2 ^ i < 2 ^ 8 := Nat.pow_lt_pow_of_lt (by norm_num) hi
    have hx8 := Nat.xor_lt_two_pow hblt8 h2i
    exact Nat.lt_of_lt_of_le hx8 (by norm_num)
  have hxb : (key ++ value).getD j 0 ^^^ 2 ^ i ≠ (key ++ value).getD j 0 := by
    intro hfx
    have h0 : (key ++ value).getD j 0 ^^^ 2 ^ i = (key ++ value).getD j 0 ^^^ 0 := by
      rw [Nat.xor_zero]
      exact hfx
    have h2 := xor_left_cancel h0
    have h3 : 0 < 2 ^ i := Nat.pos_pow_of_pos i (by norm_num)
    omega
  have hxmod : ((key ++ value).getD j 0 ^^^ 2 ^ i) % 256 ≠ ((key ++ value).getD j 0) % 256 := by
    rw [Nat.mod_eq_of_lt hxlt, Nat.mod_eq_of_lt hblt]
    exact hxb
  have hcs := checksum_ieee_set_ne (key ++ value) j _ hj hxmod
  rw [e, show 12 + j = (u32ToLE (checksum_ieee (key ++ value)) ++ (u32ToLE key.length
      ++ u32ToLE value.length)).length + j by rw [hh]]
  rw [flipBit_append _ _ j i hj]
  simp only [List.append_assoc]
  rw [processRecord_header (checksum_ieee (key ++ value)) key.length value.length
    ((key ++ value).set j ((key ++ value).getD j 0 ^^^ 2 ^ i))
    (checksum_ieee_lt _) (by omega) (by omega)]
  rw [Nat.mod_eq_of_lt hkv]
  have hst : ((key ++ value).set j ((key ++ value).getD j 0 ^^^ 2 ^ i)).length
      = key.length + value.length := by
    simp
  rw [List.take_of_length_le (le_of_eq hst)]
  rw [finishRecord, if_pos hcs]

theorem c5_witness :
    ([97] : List Byte).length + ([] : List Byte).length < u32max ∧
    (∀ b ∈ ([97] : List Byte) ++ [], b < 256) ∧
    0 < (([97] : List Byte) ++ []).length ∧ 0 < 8 ∧
    processRecord (flipBit (encode ⟨[97], []⟩) (12 + 0) 0) = .corruptPanic :=
  ⟨by decide, by decide, by decide, by decide,
    c5_bit_flip_detected [97] [] 0 0 (by decide) (by decide) (by decide) (by decide)⟩

lemma idxGet_idxSet_self (idx : Index) (k : List Byte) (off : Nat) :
    idxGet (idxSet idx k off) k = some off := by
  unfold idxGet idxSet
  rw [List.find?_cons_of_pos _ (by simp)]

lemma encode_length (kv : KeyValuePair) :
    (encode kv).length = 12 + kv.key.length + kv.value.length := by
  simp [encode, u32ToLE]
  omega

lemma rebuildAux_ok (fuel : Nat) (bytes : List Byte) (off : Nat) (idx : Index)
    {kv : KeyValuePair} {rest : List Byte} (h : processRecord bytes = .ok kv rest) :
    rebuildAux (fuel + 1) bytes off idx
      = rebuildAux fuel rest (off + (bytes.length - rest.length)) (idxSet idx kv.key off) := by
  simp [rebuildAux, h]

lemma rebuildAux_nil (fuel off : Nat) (idx : Index) :
    rebuildAux fuel [] off idx = idx := by
  cases fuel <;> rfl

/-- C8: last-write-wins — after inserting `(key, v1)` then `(key, v2)`,
`get key` returns `v2`; the index entry for `key` equals the byte offset
returned by the second append (the length of the log after the first
insert); and rebuilding the index from the resulting log by scanning in log
order yields that same offset for `key`, the later record overwriting the
earlier one. -/
theorem c8_last_write_wins (key v1 v2 : List Byte) (hne : v1 ≠ v2)
    (h1 : key.length + v1.length < u32max) (h2 : key.length + v2.length < u32max) :
    ((Store.empty.insert key v1).insert key v2).get key = some v2 ∧
    idxGet ((Store.empty.insert key v1).insert key v2).index key
      = some (encode ⟨key, v1⟩).length ∧
    idxGet (Index.rebuild ((Store.empty.insert key v1).insert key v2).log) key
      = some (encode ⟨key, v1⟩).length := by
  have e2 : processRecord (encode ⟨key, v2⟩) = .ok ⟨key, v2⟩ [] := by
    simpa using processRecord_encode key v2 [] h2
  have e1 : processRecord (encode ⟨key, v1⟩ ++ encode ⟨key, v2⟩)
      = .ok ⟨key, v1⟩ (encode ⟨key, v2⟩) := processRecord_encode key v1 _ h1
  have hlog : ((Store.empty.insert key v1).insert key v2).log
      = encode ⟨key, v1⟩ ++ encode ⟨key, v2⟩ := by
    simp [Store.insert, Store.empty]
  have hidx : idxGet ((Store.empty.insert key v1).insert key v2).index key
      = some (encode ⟨key, v1⟩).length := by
    show idxGet (idxSet _ key (([] : List Byte) ++ encode ⟨key, v1⟩).length) key = _
    rw [idxGet_idxSet_self, List.nil_append]
  refine ⟨?_, hidx, ?_⟩
  · unfold Store.get
    rw [hidx, hlog]
    show (match processRecord ((encode ⟨key, v1⟩ ++ encode ⟨key, v2⟩).drop
        (encode ⟨key, v1⟩).length) with
      | ProcResult.ok kv _ => some kv.value
      | _ => none) = some v2
    rw [List.drop_left, e2]
  · rw [hlog]
    unfold Index.rebuild
    rw [rebuildAux_ok _ _ _ _ e1]
    have hoff : 0 + ((encode ⟨key, v1⟩ ++ encode ⟨key, v2⟩).length
        - (encode ⟨key, v2⟩).length) = (encode ⟨key, v1⟩).length := by
      simp
    rw [hoff]
    have hL : (encode ⟨key, v1⟩ ++ encode ⟨key, v2⟩).length
        = ((encode ⟨key, v1⟩ ++ encode ⟨key, v2⟩).length - 1) + 1 := by
      have hl1 := encode_length ⟨key, v1⟩
      simp only [List.length_append]
      omega
    rw [hL, rebuildAux_ok _ _ _ _ e2, rebuildAux_nil]
    exact idxGet_idxSet_self _ _ _

theorem c8_witness :
    ([49] : List Byte) ≠ [50] ∧
    ([107] : List Byte).length + ([49] : List Byte).length < u32max ∧
    ([107] : List Byte).length + ([50] : List Byte).length < u32max ∧
    (((Store.empty.insert [107] [49]).insert [107] [50]).get [107] = some [50] ∧
      idxGet ((Store.empty.insert [107] [49]).insert [107] [50]).index [107]
        = some (encode ⟨[107], [49]⟩).length ∧
      idxGet (Index.rebuild ((Store.empty.insert [107] [49]).insert [107] [50]).log) [107]
        = some (encode ⟨[107], [49]⟩).length) :=
  ⟨by decide, by decide, by decide,
    c8_last_write_wins [107] [49] [50] (by decide) (by decide) (by decide)⟩

theorem c10_witness :
    1 + 1 < u32max ∧ 1 + 1 ≤ ([97, 98] : List Byte).length ∧
    (∃ kv rest,
      processRecord (u32ToLE (checksum_ieee (([97, 98] : List Byte).take (1 + 1))) ++
          (u32ToLE 1 ++ (u32ToLE 1 ++ [97, 98]))) = .ok kv rest ∧
      kv.key.length = 1 ∧ kv.value.length = 1) :=
  ⟨by decide, by decide, c10_split_in_bounds 1 1 [97, 98] (by decide) (by decide)⟩

end ActionKVSpec
